import Mathlib

/-!
# TextAnaSearch — verification of the core against its specification

Shallow embedding of the repository's core (files `text_processor.py`,
`simple_indexer.py`, `frequency_analyzer.py`, `document_retriever.py`).

Python dictionaries are modelled as insertion-ordered association lists
`List (String × V)`: lookup returns the first binding, updating an existing
key keeps its position, and inserting a new key appends it at the end —
exactly the observable behaviour of CPython dicts (and `collections.Counter`,
which is a dict subclass).  The regex classes `\w` / `\s` and `str.lower`
are modelled on their ASCII fragment (`Char.isAlphanum || '_'`,
`Char.isWhitespace`, `Char.toLower`); every scenario in the specification is
ASCII.

A notable feature of the source: `SimpleIndexer` and `FrequencyAnalyzer`
spell their constructors `_init_` (single underscores), so Python never runs
them; a fresh instance has *no* `index` / `freq_per_doc` / `corpus_freq`
attribute until some method assigns it.  Those attributes are therefore
modelled as `Option`-valued fields (`none` = attribute absent, reading it
raises `AttributeError`).
-/

/-- Errors the modelled Python code can raise. -/
inductive PyError : Type where
  /-- Reading a missing attribute (e.g. on an instance whose misspelled
  `_init_` never ran). -/
  | attributeError : PyError
  /-- `KeyError`, raised by `FrequencyAnalyzer.get_top_n_in_document`. -/
  | keyError : PyError
  /-- `FileNotFoundError(p)` raised by `TextProcessor.process_documents`. -/
  | fileNotFound (p : String) : PyError
deriving DecidableEq, Repr

deriving instance DecidableEq for Except

/-! ## Insertion-ordered dictionaries (Python `dict` / `Counter`) -/

/-- `d.get(k)`: first binding of `k`, if any. -/
def alookup {V : Type} (k : String) : List (String × V) → Option V
  | [] => none
  | (k', v) :: rest => if k' = k then some v else alookup k rest

/-- `d[k] = v`: update in place if `k` is present, else append at the end
(CPython dicts preserve insertion order). -/
def dictInsert {V : Type} (d : List (String × V)) (k : String) (v : V) :
    List (String × V) :=
  match d with
  | [] => [(k, v)]
  | (k', v') :: rest =>
    if k' = k then (k', v) :: rest else (k', v') :: dictInsert rest k v

/-- `k in d`. -/
def containsKey {V : Type} (k : String) (d : List (String × V)) : Bool :=
  (alookup k d).isSome

/-- `list(d.keys())`. -/
def dkeys {V : Type} (d : List (String × V)) : List String :=
  d.map Prod.fst

/-- `d.setdefault(k, 0); d[k] += n` — also `Counter` point-wise addition. -/
def dictAddN (d : List (String × Nat)) (k : String) (n : Nat) :
    List (String × Nat) :=
  match d with
  | [] => [(k, n)]
  | (k', v) :: rest =>
    if k' = k then (k', v + n) :: rest else (k', v) :: dictAddN rest k n

/-! ## Tokenization (`TextProcessor._clean_and_tokenize`, and the identical
line-cleaning inside `SimpleIndexer.build_index`) -/

/-- ASCII fragment of the regex class `\w` (alphanumeric or underscore). -/
def isWordChar (c : Char) : Bool :=
  c.isAlphanum || c = '_'

/-- `text.lower()` then `re.sub(r'[^\w\s]', '', text)`: lowercase every
character and drop those that are neither word characters nor whitespace. -/
def cleanChars (cs : List Char) : List Char :=
  (cs.map Char.toLower).filter (fun c => isWordChar c || c.isWhitespace)

/-- Worker for `str.split()` (no separator): split on whitespace runs,
producing no empty tokens.  `acc` holds the current token, reversed. -/
def splitWsAux : List Char → List Char → List String
  | [], acc => if acc.isEmpty then [] else [String.mk acc.reverse]
  | c :: rest, acc =>
    if c.isWhitespace then
      if acc.isEmpty then splitWsAux rest []
      else String.mk acc.reverse :: splitWsAux rest []
    else splitWsAux rest (c :: acc)

/-- `text.split()`. -/
def pySplit (cs : List Char) : List String :=
  splitWsAux cs []

/-- `SimpleIndexer.build_index` per-line pipeline: lower, strip punctuation,
split on whitespace. -/
def lineTokens (line : String) : List String :=
  pySplit (cleanChars line.toList)

/-- `TextProcessor._clean_and_tokenize`: same pipeline, followed by the
(no-op) filter `[tok for tok in tokens if tok]`. -/
def cleanAndTokenize (text : String) : List String :=
  (pySplit (cleanChars text.toList)).filter (fun t => t ≠ "")

/-- `word.lower()` (ASCII fragment). -/
def strLower (s : String) : String :=
  String.mk (s.toList.map Char.toLower)

/-- `f.readlines()` followed by `[l.strip('\n') for l in lignes]`: the list
of lines of the file content, newline terminators removed; an empty file has
no lines, a trailing newline does not create a final empty line. -/
def pyLines (s : String) : List String :=
  if s = "" then []
  else
    let parts := s.toList.splitOn '\n' |>.map String.mk
    if s.toList.getLast? = some '\n' then parts.dropLast else parts

/-! ## `SimpleIndexer` -/

/-- The inverted index `{mot: {chemin_fichier: [n°_ligne, ...]}}`. -/
abbrev Index := List (String × List (String × List Nat))

/-- Body of the innermost loop of `SimpleIndexer.build_index`:
`if mot not in index: index[mot] = {}`,
`if filepath not in index[mot]: index[mot][filepath] = []`,
`index[mot][filepath].append(idx)`. -/
def addToken (ix : Index) (fp : String) (i : Nat) (mot : String) : Index :=
  let inner := (alookup mot ix).getD []
  let lst := (alookup fp inner).getD []
  dictInsert ix mot (dictInsert inner fp (lst ++ [i]))

/-- One line of one document: clean, split, and record every token of the
line under line number `i`. -/
def addLineTokens (ix : Index) (fp : String) (i : Nat) (line : String) :
    Index :=
  (lineTokens line).foldl (fun a mot => addToken a fp i mot) ix

/-- `for idx, raw_line in enumerate(lines, start=1)`. -/
def addLines (ix : Index) (fp : String) (i : Nat) : List String → Index
  | [] => ix
  | l :: rest => addLines (addLineTokens ix fp i l) fp (i + 1) rest

/-- `SimpleIndexer.build_index` starting from the fresh `self.index = {}`. -/
def buildIndex (docsLines : List (String × List String)) : Index :=
  docsLines.foldl (fun ix p => addLines ix p.1 1 p.2) []

/-- A `SimpleIndexer` instance.  The source misspells the constructor
`_init_`, so Python never calls it: a fresh instance has no `index`
attribute (`none`); `build_index` assigns it. -/
structure SimpleIndexer : Type where
  index : Option Index
deriving DecidableEq, Repr

/-- `SimpleIndexer()` — the misspelled `_init_` does not run. -/
def SimpleIndexer.new : SimpleIndexer := ⟨none⟩

/-- `SimpleIndexer.build_index`: rebuilds `self.index` from scratch. -/
def SimpleIndexer.build_index (si : SimpleIndexer)
    (docsLines : List (String × List String)) : SimpleIndexer :=
  let _ := si
  ⟨some (buildIndex docsLines)⟩

/-- `SimpleIndexer.search_word`: `self.index.get(word.lower(), {})`.
Reading `self.index` on a fresh instance raises `AttributeError`. -/
def SimpleIndexer.search_word (si : SimpleIndexer) (word : String) :
    Except PyError (List (String × List Nat)) :=
  match si.index with
  | none => .error .attributeError
  | some ix => .ok ((alookup (strLower word) ix).getD [])

/-! ## `FrequencyAnalyzer` -/

/-- `collections.Counter` as an insertion-ordered table. -/
abbrev Counter := List (String × Nat)

/-- `Counter(tokens)`: count key order is first-occurrence order. -/
def mkCounter (tokens : List String) : Counter :=
  tokens.foldl (fun c w => dictAddN c w 1) []

/-- `acc.update(c)` for `Counter`s: point-wise addition, new keys
appended. -/
def counterUpdate (acc c : Counter) : Counter :=
  c.foldl (fun a p => dictAddN a p.1 p.2) acc

/-- `c.get(t, 0)` / `c[t]` for a `Counter`. -/
def counterGet (c : Counter) (t : String) : Nat :=
  (alookup t c).getD 0

/-- Insert one pair into a list already sorted by count descending, after
every element of count ≥ its own (matching Python's stable
`sorted(key=count, reverse=True)`). -/
def insertDesc (x : String × Nat) : List (String × Nat) → List (String × Nat)
  | [] => [x]
  | y :: ys => if y.2 ≤ x.2 then x :: y :: ys else y :: insertDesc x ys

/-- Stable sort by count descending (ties keep original order), the
behaviour of Python's `sorted(..., key=itemgetter(1), reverse=True)` and of
`heapq.nlargest` inside `Counter.most_common`. -/
def sortDesc : List (String × Nat) → List (String × Nat)
  | [] => []
  | x :: xs => insertDesc x (sortDesc xs)

/-- `Counter.most_common(n)`. -/
def mostCommon (n : Nat) (c : Counter) : List (String × Nat) :=
  (sortDesc c).take n

/-- A `FrequencyAnalyzer` instance.  The source misspells the constructor
`_init_`, so a fresh instance has neither `freq_per_doc` nor `corpus_freq`
(`none` = attribute absent). -/
structure FrequencyAnalyzer : Type where
  freq_per_doc : Option (List (String × Counter))
  corpus_freq : Option Counter
deriving DecidableEq, Repr

/-- `FrequencyAnalyzer()` — the misspelled `_init_` does not run. -/
def FrequencyAnalyzer.new : FrequencyAnalyzer := ⟨none, none⟩

/-- `compute_frequency_per_document`: `self.freq_per_doc = {}` then one
`Counter(tokens)` per document. -/
def FrequencyAnalyzer.compute_frequency_per_document (fa : FrequencyAnalyzer)
    (docsTokens : List (String × List String)) : FrequencyAnalyzer :=
  { fa with
    freq_per_doc := some (docsTokens.map (fun p => (p.1, mkCounter p.2))) }

/-- `compute_corpus_frequency`: assigns `self.corpus_freq = Counter()` and
then folds `update` over `self.freq_per_doc.values()`.  On a fresh instance
the read of `self.freq_per_doc` raises `AttributeError` — but the assignment
to `corpus_freq` has already happened, so the partially mutated state is
returned alongside the error. -/
def FrequencyAnalyzer.compute_corpus_frequency (fa : FrequencyAnalyzer) :
    Option PyError × FrequencyAnalyzer :=
  let fa' := { fa with corpus_freq := some [] }
  match fa.freq_per_doc with
  | none => (some .attributeError, fa')
  | some perDoc =>
    (none,
     { fa' with
       corpus_freq :=
         some (perDoc.foldl (fun acc p => counterUpdate acc p.2) []) })

/-- `get_top_n_in_document`: `KeyError` when the document was never
analyzed, `AttributeError` when `freq_per_doc` itself is absent, else
`most_common(n)`. -/
def FrequencyAnalyzer.get_top_n_in_document (fa : FrequencyAnalyzer)
    (filepath : String) (n : Nat) : Except PyError (List (String × Nat)) :=
  match fa.freq_per_doc with
  | none => .error .attributeError
  | some table =>
    match alookup filepath table with
    | none => .error .keyError
    | some c => .ok (mostCommon n c)

/-- `get_top_n_in_corpus`: `self.corpus_freq.most_common(n)`. -/
def FrequencyAnalyzer.get_top_n_in_corpus (fa : FrequencyAnalyzer)
    (n : Nat) : Except PyError (List (String × Nat)) :=
  match fa.corpus_freq with
  | none => .error .attributeError
  | some c => .ok (mostCommon n c)

/-! ## `TextProcessor` -/

/-- `TextProcessor` document stores (its `__init__` is spelled correctly in
the source, so a fresh instance really has the three empty dicts). -/
structure TextProcessor : Type where
  docs_raw : List (String × String)
  docs_tokens : List (String × List String)
  docs_lines : List (String × List String)
deriving DecidableEq, Repr

/-- `TextProcessor()`. -/
def TextProcessor.new : TextProcessor := ⟨[], [], []⟩

/-- `TextProcessor._is_text_file`: `filename.lower().endswith('.txt')`. -/
def is_text_file (filename : String) : Bool :=
  (strLower filename).endsWith ".txt"

/-- Abstraction of the filesystem facts `process_documents` consults:
`os.path.isdir`, `os.path.isfile`, the full file paths produced by
`os.walk` under a directory (in walk order), and file contents as decoded
by `open(..., encoding='utf-8', errors='ignore')`. -/
structure FileSystem : Type where
  isDir : String → Bool
  isFile : String → Bool
  walk : String → List String
  content : String → String

/-- First loop of `TextProcessor.process_documents`: resolve the paths into
the list `to_process`, raising `FileNotFoundError` on the first path that is
neither a directory nor an eligible `.txt` file.  A directory contributes
every `.txt` file found by the recursive walk. -/
def resolvePaths (fs : FileSystem) : List String → Except String (List String)
  | [] => .ok []
  | p :: rest =>
    if fs.isDir p then
      match resolvePaths fs rest with
      | .error q => .error q
      | .ok r => .ok (((fs.walk p).filter is_text_file) ++ r)
    else if fs.isFile p && is_text_file p then
      match resolvePaths fs rest with
      | .error q => .error q
      | .ok r => .ok (p :: r)
    else .error p

/-- Body of the second loop of `process_documents`: read the file and
replace this document's entries in the three stores. -/
def loadDoc (fs : FileSystem) (tp : TextProcessor) (fp : String) :
    TextProcessor :=
  let raw := fs.content fp
  { docs_raw := dictInsert tp.docs_raw fp raw
    docs_lines := dictInsert tp.docs_lines fp (pyLines raw)
    docs_tokens := dictInsert tp.docs_tokens fp (cleanAndTokenize raw) }

/-- `TextProcessor.process_documents`: the whole path list is resolved
before any store is touched, so a `FileNotFoundError` leaves the stores
exactly as they were. -/
def TextProcessor.process_documents (fs : FileSystem) (tp : TextProcessor)
    (paths : List String) : Option PyError × TextProcessor :=
  match resolvePaths fs paths with
  | .error p => (some (.fileNotFound p), tp)
  | .ok toProcess => (none, toProcess.foldl (loadDoc fs) tp)

/-! ## `DocumentRetriever` -/

/-- `DocumentRetriever` holds references to an index and a per-document
frequency table (its `__init__` is spelled correctly). -/
structure DocumentRetriever : Type where
  index : Index
  freq_per_doc : List (String × Counter)
deriving Repr

/-- `self.freq_per_doc.get(filepath, Counter()).get(mot, 0)`. -/
def freqGet (freq : List (String × Counter)) (fp mot : String) : Nat :=
  counterGet ((alookup fp freq).getD []) mot

/-- One iteration of the keyword loop of `DocumentRetriever.retrieve`:
skip a keyword absent from the index, otherwise bump every document listed
under it by that document's frequency count for the keyword. -/
def orStep (r : DocumentRetriever) (acc : List (String × Nat))
    (kw : String) : List (String × Nat) :=
  let mot := strLower kw
  match alookup mot r.index with
  | none => acc
  | some entry =>
    entry.foldl (fun a p => dictAddN a p.1 (freqGet r.freq_per_doc p.1 mot)) acc

/-- `DocumentRetriever.retrieve` (OR mode): accumulate `docs_with_keyword`
then sort by score descending (Python's stable sort). -/
def DocumentRetriever.retrieve (r : DocumentRetriever)
    (keywords : List String) : List (String × Nat) :=
  if keywords.isEmpty then []
  else sortDesc (keywords.foldl (orStep r) [])

/-- The local `sets_of_docs` of `boolean_and_retrieve`: for each keyword,
the set of documents listed under the lowercased keyword (empty when the
keyword is absent from the index). -/
def andDocSets (r : DocumentRetriever) (keywords : List String) :
    List (List String) :=
  keywords.map (fun kw => dkeys ((alookup (strLower kw) r.index).getD []))

/-- The local `docs_intersection` of `boolean_and_retrieve`:
`set.intersection(*sets_of_docs)`.  Python iterates the resulting set in an
unspecified order; the model takes the first keyword's document list
filtered by membership in all the others — every theorem about AND mode is
order-insensitive (it speaks of membership and of per-document scores, via
`alookup`). -/
def andIntersection (r : DocumentRetriever) (keywords : List String) :
    List String :=
  match andDocSets r keywords with
  | [] => []
  | s :: rest => s.filter (fun d => rest.all (fun s2 => s2.contains d))

/-- The score loop of `boolean_and_retrieve`:
`score += self.freq_per_doc.get(filepath, Counter()).get(kw.lower(), 0)`
over all keywords. -/
def andScore (r : DocumentRetriever) (keywords : List String)
    (fp : String) : Nat :=
  keywords.foldl (fun sc kw => sc + freqGet r.freq_per_doc fp (strLower kw)) 0

/-- `DocumentRetriever.boolean_and_retrieve` (AND mode): score every
document of the intersection, then sort by score descending. -/
def DocumentRetriever.boolean_and_retrieve (r : DocumentRetriever)
    (keywords : List String) : List (String × Nat) :=
  if keywords.isEmpty then []
  else
    sortDesc ((andIntersection r keywords).map
      (fun fp => (fp, andScore r keywords fp)))

/-- The score listed for document `d` in a result list (0 when absent). -/
def resScore (res : List (String × Nat)) (d : String) : Nat :=
  (alookup d res).getD 0

/-- Well-formed index states: the states a Python `dict`-of-`dict` can
actually take — no inner dictionary lists the same document twice. -/
def IndexWF (ix : Index) : Prop :=
  ∀ p ∈ ix, (dkeys p.2).Nodup

instance : DecidablePred IndexWF := fun ix =>
  inferInstanceAs (Decidable (∀ p ∈ ix, (dkeys p.2).Nodup))

/-! ## Derived quantities and concrete states used by the theorems -/

/-- Total value held under key `d` in an association list — equal to the
looked-up value when keys are distinct, but invariant under permutation. -/
def sumScore (l : List (String × Nat)) (d : String) : Nat :=
  ((l.filter (fun p => p.1 = d)).map Prod.snd).sum

/-- The amount one keyword occurrence in the query adds to document `d`'s
OR-mode score: the document's frequency count for the lowercased keyword,
once per listing of `d` under that keyword in the index (exactly once in
any well-formed index). -/
def orWeight (r : DocumentRetriever) (kw d : String) : Nat :=
  match alookup (strLower kw) r.index with
  | none => 0
  | some entry =>
    (entry.filter (fun p => p.1 = d)).length *
      freqGet r.freq_per_doc d (strLower kw)

/-- The single document of the specification's C1 scenario. -/
def c1Text : String := "The cat sat. The cat ran."

/-- A small coherent retriever state (both keywords hit `a.txt`). -/
def rEx : DocumentRetriever :=
  ⟨[("cat", [("a.txt", [1])]), ("dog", [("a.txt", [1])])],
   [("a.txt", [("cat", 2), ("dog", 3)])]⟩

/-- A retriever state whose index and frequency table disagree: `a.txt` has
a positive frequency count for "cat" but is not listed under "cat" in the
index (the `DocumentRetriever` constructor accepts any such pair). -/
def rBad : DocumentRetriever :=
  ⟨[("dog", [("a.txt", [1])]), ("cat", [("b.txt", [1])])],
   [("a.txt", [("dog", 1), ("cat", 5)]), ("b.txt", [("cat", 2)])]⟩

/-- A filesystem with no files and no directories. -/
def fsEmpty : FileSystem :=
  ⟨fun _ => false, fun _ => false, fun _ => [], fun _ => ""⟩

/-- A load path that is neither a directory nor an eligible `.txt` file —
the condition under which `process_documents` raises `FileNotFoundError`. -/
def InvalidPath (fs : FileSystem) (p : String) : Prop :=
  ¬ (fs.isDir p = true) ∧ ¬ (fs.isFile p = true ∧ is_text_file p = true)

/-- One document's contribution to a token's index line list: for each line
(numbered from `i` upward), the line number repeated once per occurrence of
the token on that line. -/
def lineBlocks (t : String) (i : Nat) : List String → List Nat
  | [] => []
  | l :: rest =>
    List.replicate ((lineTokens l).count t) i ++ lineBlocks t (i + 1) rest

/-- The line list stored in an index under token `t` for document `d`
(empty when either level is absent). -/
def linesIn (ix : Index) (t d : String) : List Nat :=
  ((alookup t ix).bind (alookup d)).getD []

/-- Every line list physically stored in an index is nonempty — an entry is
created only at the moment a line number is appended to it. -/
def IndexNE (ix : Index) : Prop :=
  ∀ t entry d lst, alookup t ix = some entry → alookup d entry = some lst →
    lst ≠ []

/-- A two-line document set used by the C9 witness. -/
def docsEx : List (String × List String) :=
  [("a.txt", ["cat dog", "the cat cat"])]

/-! ## Dictionary lemmas -/

theorem alookup_dictInsert {V : Type} (d : List (String × V)) (k t : String)
    (v : V) :
    alookup t (dictInsert d k v) = if k = t then some v else alookup t d := by
  induction d with
  | nil => simp [dictInsert, alookup]
  | cons hd rest ih =>
    obtain ⟨k₀, v₀⟩ := hd
    by_cases h : k₀ = k
    · subst h
      by_cases h2 : k₀ = t <;> simp [dictInsert, alookup, h2]
    · by_cases h2 : k₀ = t
      · have hkt : ¬ (k = t) := fun hh => h (h2.trans hh.symm)
        have htk : ¬ (t = k) := fun hh => hkt hh.symm
        simp [dictInsert, alookup, h, h2, hkt, htk]
      · simp [dictInsert, alookup, h, h2, ih]

theorem alookup_dictAddN (c : List (String × Nat)) (k t : String) (n : Nat) :
    alookup t (dictAddN c k n) =
      if k = t then some ((alookup k c).getD 0 + n) else alookup t c := by
  induction c with
  | nil => simp [dictAddN, alookup]
  | cons hd rest ih =>
    obtain ⟨k₀, v₀⟩ := hd
    by_cases h : k₀ = k
    · subst h
      by_cases h2 : k₀ = t <;> simp [dictAddN, alookup, h2]
    · by_cases h2 : k₀ = t
      · have hkt : ¬ (k = t) := fun hh => h (h2.trans hh.symm)
        have htk : ¬ (t = k) := fun hh => hkt hh.symm
        simp [dictAddN, alookup, h, h2, hkt, htk]
      · simp [dictAddN, alookup, h, h2, ih]

theorem counterGet_dictAddN (c : List (String × Nat)) (k t : String)
    (n : Nat) :
    counterGet (dictAddN c k n) t =
      counterGet c t + if k = t then n else 0 := by
  unfold counterGet
  rw [alookup_dictAddN]
  by_cases h : k = t
  · subst h; simp
  · simp [h]

theorem alookup_eq_none {V : Type} (d : List (String × V)) (t : String) :
    alookup t d = none ↔ t ∉ dkeys d := by
  induction d with
  | nil => simp [alookup, dkeys]
  | cons hd rest ih =>
    obtain ⟨k₀, v₀⟩ := hd
    by_cases h : k₀ = t <;> simp [alookup, dkeys, h, ih] <;> tauto

theorem containsKey_iff {V : Type} (d : List (String × V)) (t : String) :
    containsKey t d = true ↔ t ∈ dkeys d := by
  unfold containsKey
  rw [Option.isSome_iff_ne_none]
  constructor
  · intro h
    by_contra hmem
    exact h ((alookup_eq_none d t).mpr hmem)
  · intro h hnone
    exact ((alookup_eq_none d t).mp hnone) h

theorem dkeys_dictAddN (c : List (String × Nat)) (k : String) (n : Nat) :
    dkeys (dictAddN c k n) =
      if k ∈ dkeys c then dkeys c else dkeys c ++ [k] := by
  induction c with
  | nil => simp [dictAddN, dkeys]
  | cons hd rest ih =>
    obtain ⟨k₀, v₀⟩ := hd
    by_cases h : k₀ = k
    · subst h; simp [dictAddN, dkeys]
    · have hne : ¬ (k = k₀) := fun hh => h hh.symm
      simp only [dictAddN, if_neg h, dkeys, List.map_cons] at ih ⊢
      rw [ih]
      by_cases hmem : k ∈ List.map Prod.fst rest
      · simp [hmem, hne]
      · simp [hmem, hne]

theorem nodup_dkeys_dictAddN (c : List (String × Nat)) (k : String) (n : Nat)
    (h : (dkeys c).Nodup) : (dkeys (dictAddN c k n)).Nodup := by
  rw [dkeys_dictAddN]
  by_cases hmem : k ∈ dkeys c
  · simpa [hmem] using h
  · simp only [hmem, if_false]
    simpa [List.nodup_append] using ⟨h, hmem⟩

theorem alookup_mem {V : Type} {d : List (String × V)} {t : String} {v : V}
    (h : alookup t d = some v) : (t, v) ∈ d := by
  induction d with
  | nil => simp [alookup] at h
  | cons hd rest ih =>
    obtain ⟨k₀, v₀⟩ := hd
    by_cases hk : k₀ = t
    · subst hk
      simp [alookup] at h
      subst h
      exact List.mem_cons_self _ _
    · simp only [alookup, if_neg hk] at h
      exact List.mem_cons_of_mem _ (ih h)

theorem mem_alookup {V : Type} {d : List (String × V)} {t : String} {v : V}
    (hnd : (dkeys d).Nodup) (h : (t, v) ∈ d) : alookup t d = some v := by
  induction d with
  | nil => simp at h
  | cons hd rest ih =>
    obtain ⟨k₀, v₀⟩ := hd
    rcases List.mem_cons.mp h with heq | hmem
    · injection heq with h1 h2
      subst h1; subst h2
      simp [alookup]
    · have htk : t ∈ List.map Prod.fst rest :=
        (List.mem_map_of_mem Prod.fst hmem : (t, v).1 ∈ _)
      simp only [dkeys, List.map_cons, List.nodup_cons] at hnd
      have hk : ¬ (k₀ = t) := fun hh => hnd.1 (hh ▸ htk)
      simp only [alookup, if_neg hk]
      exact ih hnd.2 hmem

theorem alookup_perm {V : Type} {d d' : List (String × V)} (hp : d.Perm d')
    (hnd : (dkeys d).Nodup) (t : String) : alookup t d = alookup t d' := by
  have hnd' : (dkeys d').Nodup := ((hp.map Prod.fst).nodup_iff).mp hnd
  cases hl : alookup t d with
  | some v => exact (mem_alookup hnd' (hp.mem_iff.mp (alookup_mem hl))).symm
  | none =>
    have hmem : t ∉ dkeys d' := by
      intro hmem
      exact (alookup_eq_none d t).mp hl
        (((hp.map Prod.fst).mem_iff (a := t)).mpr hmem)
    exact ((alookup_eq_none d' t).mpr hmem).symm

/-! ## Score-sum lemmas -/

theorem sumScore_nil (d : String) : sumScore [] d = 0 := rfl

theorem sumScore_cons (k : String) (v : Nat) (rest : List (String × Nat))
    (d : String) :
    sumScore ((k, v) :: rest) d =
      (if k = d then v else 0) + sumScore rest d := by
  by_cases h : k = d <;> simp [sumScore, h]

theorem sumScore_dictAddN (c : List (String × Nat)) (k d : String)
    (n : Nat) :
    sumScore (dictAddN c k n) d = sumScore c d + if k = d then n else 0 := by
  induction c with
  | nil => by_cases h : k = d <;> simp [dictAddN, sumScore, h]
  | cons hd rest ih =>
    obtain ⟨k₀, v₀⟩ := hd
    by_cases h : k₀ = k
    · subst h
      by_cases h2 : k₀ = d <;> simp [dictAddN, sumScore_cons, h2] <;> omega
    · simp only [dictAddN, if_neg h, sumScore_cons, ih]
      omega

theorem sumScore_eq_zero {l : List (String × Nat)} {d : String}
    (h : d ∉ dkeys l) : sumScore l d = 0 := by
  induction l with
  | nil => rfl
  | cons hd rest ih =>
    obtain ⟨k₀, v₀⟩ := hd
    simp only [dkeys, List.map_cons, List.mem_cons, not_or] at h
    have hk : ¬ (k₀ = d) := fun hh => h.1 hh.symm
    rw [sumScore_cons, if_neg hk, ih h.2]

theorem sumScore_eq_alookup {l : List (String × Nat)} {d : String}
    (hnd : (dkeys l).Nodup) : sumScore l d = (alookup d l).getD 0 := by
  induction l with
  | nil => rfl
  | cons hd rest ih =>
    obtain ⟨k₀, v₀⟩ := hd
    simp only [dkeys, List.map_cons, List.nodup_cons] at hnd
    by_cases h : k₀ = d
    · subst h
      rw [sumScore_cons, if_pos rfl, sumScore_eq_zero hnd.1]
      simp [alookup]
    · rw [sumScore_cons, if_neg h]
      simp only [alookup, if_neg h]
      simpa using ih hnd.2

theorem sumScore_perm {l l' : List (String × Nat)} (hp : l.Perm l')
    (d : String) : sumScore l d = sumScore l' d := by
  unfold sumScore
  exact (List.Perm.map Prod.snd
    (List.Perm.filter (fun p => decide (p.1 = d)) hp)).sum_eq

/-! ## The stable descending sort -/

theorem insertDesc_perm (x : String × Nat) (l : List (String × Nat)) :
    (insertDesc x l).Perm (x :: l) := by
  induction l with
  | nil => simp [insertDesc]
  | cons y ys ih =>
    by_cases h : y.2 ≤ x.2
    · simp [insertDesc, h]
    · simp only [insertDesc, if_neg h]
      exact (ih.cons y).trans (List.Perm.swap x y ys)

theorem sortDesc_perm (l : List (String × Nat)) : (sortDesc l).Perm l := by
  induction l with
  | nil => simp [sortDesc]
  | cons x xs ih => exact (insertDesc_perm x (sortDesc xs)).trans (ih.cons x)

theorem mem_insertDesc {y x : String × Nat} {l : List (String × Nat)} :
    y ∈ insertDesc x l ↔ y = x ∨ y ∈ l := by
  rw [(insertDesc_perm x l).mem_iff]
  simp

theorem insertDesc_sorted {l : List (String × Nat)} (x : String × Nat)
    (hs : l.Pairwise (fun a b => b.2 ≤ a.2)) :
    (insertDesc x l).Pairwise (fun a b => b.2 ≤ a.2) := by
  induction l with
  | nil => simp [insertDesc]
  | cons y ys ih =>
    rcases List.pairwise_cons.mp hs with ⟨hy, hys⟩
    by_cases h : y.2 ≤ x.2
    · simp only [insertDesc, if_pos h]
      refine List.pairwise_cons.mpr ⟨?_, hs⟩
      intro z hz
      rcases List.mem_cons.mp hz with rfl | hz'
      · exact h
      · exact le_trans (hy z hz') h
    · simp only [insertDesc, if_neg h]
      refine List.pairwise_cons.mpr ⟨?_, ih hys⟩
      intro z hz
      rcases mem_insertDesc.mp hz with rfl | hz'
      · exact le_of_not_le h
      · exact hy z hz'

theorem sortDesc_sorted (l : List (String × Nat)) :
    (sortDesc l).Pairwise (fun a b => b.2 ≤ a.2) := by
  induction l with
  | nil => simp [sortDesc]
  | cons x xs ih => exact insertDesc_sorted x ih

theorem insertDesc_filter {l : List (String × Nat)} (x : String × Nat)
    (v : Nat) (hs : l.Pairwise (fun a b => b.2 ≤ a.2)) :
    (insertDesc x l).filter (fun p => p.2 = v) =
      if x.2 = v then x :: l.filter (fun p => p.2 = v)
      else l.filter (fun p => p.2 = v) := by
  induction l with
  | nil => by_cases h : x.2 = v <;> simp [insertDesc, h]
  | cons y ys ih =>
    rcases List.pairwise_cons.mp hs with ⟨hy, hys⟩
    by_cases h : y.2 ≤ x.2
    · simp only [insertDesc, if_pos h]
      by_cases hx : x.2 = v <;> simp [List.filter_cons, hx]
    · have hlt : x.2 < y.2 := lt_of_not_le h
      simp only [insertDesc, if_neg h, List.filter_cons, ih hys]
      by_cases hyv : y.2 = v
      · have hxv : ¬ (x.2 = v) := by omega
        simp [hyv, hxv]
      · by_cases hxv : x.2 = v <;> simp [hyv, hxv]

theorem sortDesc_filter (l : List (String × Nat)) (v : Nat) :
    (sortDesc l).filter (fun p => p.2 = v) =
      l.filter (fun p => p.2 = v) := by
  induction l with
  | nil => simp [sortDesc]
  | cons x xs ih =>
    rw [sortDesc, insertDesc_filter x v (sortDesc_sorted xs), ih]
    by_cases hx : x.2 = v <;> simp [List.filter_cons, hx]

theorem alookup_sortDesc {l : List (String × Nat)}
    (hnd : (dkeys l).Nodup) (d : String) :
    alookup d (sortDesc l) = alookup d l := by
  have hnd' : (dkeys (sortDesc l)).Nodup :=
    (((sortDesc_perm l).map Prod.fst).nodup_iff).mpr hnd
  exact alookup_perm (sortDesc_perm l) hnd' d

/-! ## Claim C1 — the specification's end-to-end scenario -/

/-- C1, counterexample.  The scenario's claimed search result
`{"a.txt": [1, 2]}` is wrong: the document text contains no newline, so it
is a single line and `search_word("cat")` reports line 1 once per
occurrence, i.e. `{"a.txt": [1, 1]}`. -/
theorem c1_counterexample :
    SimpleIndexer.search_word
        (SimpleIndexer.build_index SimpleIndexer.new
          [("a.txt", pyLines c1Text)]) "cat" ≠
      .ok [("a.txt", [1, 2])] := by decide

/-- C1, amended.  For the single document
`{"a.txt": "The cat sat. The cat ran."}`: tokenization yields
`["the","cat","sat","the","cat","ran"]`, the per-document frequency table is
`{"the":2,"cat":2,"sat":1,"ran":1}`, and after building the index,
`search_word("cat")` returns `{"a.txt": [1, 1]}` (the whole text is one
line, on which "cat" occurs twice). -/
theorem c1_scenario :
    cleanAndTokenize c1Text = ["the", "cat", "sat", "the", "cat", "ran"] ∧
    mkCounter (cleanAndTokenize c1Text) =
      [("the", 2), ("cat", 2), ("sat", 1), ("ran", 1)] ∧
    SimpleIndexer.search_word
        (SimpleIndexer.build_index SimpleIndexer.new
          [("a.txt", pyLines c1Text)]) "cat" =
      .ok [("a.txt", [1, 1])] := by
  refine ⟨by decide, by decide, by decide⟩

/-! ## Claim C2 — corpus frequency before per-document frequency -/

/-- C2.  Because `FrequencyAnalyzer`'s constructor is misspelled `_init_`,
a fresh instance has no `freq_per_doc` attribute, and
`compute_corpus_frequency` raises `AttributeError` instead of succeeding as
the claim states.  The assignment `self.corpus_freq = Counter()` has
already run when the error is raised, so the corpus table is left empty and
every subsequent `get_top_n_in_corpus(n)` does return the empty list. -/
theorem c2_fresh_corpus :
    (FrequencyAnalyzer.compute_corpus_frequency FrequencyAnalyzer.new).1 =
      some PyError.attributeError ∧
    (FrequencyAnalyzer.compute_corpus_frequency
        FrequencyAnalyzer.new).2.corpus_freq = some [] ∧
    ∀ n : Nat,
      FrequencyAnalyzer.get_top_n_in_corpus
          (FrequencyAnalyzer.compute_corpus_frequency FrequencyAnalyzer.new).2
          n =
        .ok [] := by
  refine ⟨rfl, rfl, fun n => ?_⟩
  simp [FrequencyAnalyzer.get_top_n_in_corpus,
    FrequencyAnalyzer.compute_corpus_frequency, FrequencyAnalyzer.new,
    mostCommon, sortDesc]

/-! ## Claim C8 — `search_word` never raises -/

/-- C8.  On any indexer state produced by `build_index`, `search_word`
lowercases its argument and returns the index entry for the lowercased
word (empty mapping when absent), without error.  But the claim quantifies
over *every* state of the `SimpleIndexer`, and on a fresh instance (whose
misspelled `_init_` never ran, so `self.index` does not exist)
`search_word` raises `AttributeError`. -/
theorem c8_search_word :
    SimpleIndexer.search_word SimpleIndexer.new "cat" =
      .error PyError.attributeError ∧
    ∀ (si : SimpleIndexer) (docsLines : List (String × List String))
      (w : String),
      SimpleIndexer.search_word (SimpleIndexer.build_index si docsLines) w =
        .ok ((alookup (strLower w) (buildIndex docsLines)).getD []) :=
  ⟨rfl, fun _ _ _ => rfl⟩

/-! ## Counter lemmas -/

theorem nodup_dkeys_count_fold (toks : List String) (c : Counter)
    (h : (dkeys c).Nodup) :
    (dkeys (toks.foldl (fun a w => dictAddN a w 1) c)).Nodup := by
  induction toks generalizing c with
  | nil => exact h
  | cons w rest ih => exact ih _ (nodup_dkeys_dictAddN c w 1 h)

theorem nodup_dkeys_mkCounter (toks : List String) :
    (dkeys (mkCounter toks)).Nodup :=
  nodup_dkeys_count_fold toks [] (by simp [dkeys])

theorem counterGet_counterUpdate (c acc : Counter) (t : String) :
    counterGet (counterUpdate acc c) t = counterGet acc t + sumScore c t := by
  induction c generalizing acc with
  | nil => simp [counterUpdate, sumScore]
  | cons hd rest ih =>
    obtain ⟨w, n⟩ := hd
    have : counterUpdate acc ((w, n) :: rest) =
        counterUpdate (dictAddN acc w n) rest := rfl
    rw [this, ih, counterGet_dictAddN, sumScore_cons]
    by_cases h : w = t <;> simp [h] <;> omega

theorem counterGet_corpus_fold (perDoc : List (String × Counter))
    (init : Counter) (t : String) :
    counterGet (perDoc.foldl (fun acc p => counterUpdate acc p.2) init) t =
      counterGet init t + (perDoc.map (fun p => sumScore p.2 t)).sum := by
  induction perDoc generalizing init with
  | nil => simp
  | cons hd rest ih =>
    rw [List.foldl_cons, ih, counterGet_counterUpdate]
    simp [Nat.add_assoc]

theorem sumScore_mkCounter (toks : List String) (t : String) :
    sumScore (mkCounter toks) t = counterGet (mkCounter toks) t :=
  sumScore_eq_alookup (nodup_dkeys_mkCounter toks)

/-! ## Claim C3 — corpus counts are the sum of per-document counts -/

/-- C3.  After `compute_frequency_per_document` on any document → token
mapping followed by `compute_corpus_frequency` (which succeeds), the corpus
count of every token equals the sum, over the per-document tables, of that
document's count for the token. -/
theorem c3_corpus_sum (fa : FrequencyAnalyzer)
    (docsTokens : List (String × List String)) (t : String) :
    (FrequencyAnalyzer.compute_corpus_frequency
        (FrequencyAnalyzer.compute_frequency_per_document fa docsTokens)).1 =
      none ∧
    counterGet
        ((FrequencyAnalyzer.compute_corpus_frequency
            (FrequencyAnalyzer.compute_frequency_per_document
              fa docsTokens)).2.corpus_freq.getD [])
        t =
      (((FrequencyAnalyzer.compute_frequency_per_document
            fa docsTokens).freq_per_doc.getD []).map
          (fun p => counterGet p.2 t)).sum := by
  refine ⟨rfl, ?_⟩
  show counterGet
      ((docsTokens.map
          (fun p : String × List String => (p.1, mkCounter p.2))).foldl
        (fun (acc : Counter) (p : String × Counter) =>
          counterUpdate acc p.2) []) t =
    ((docsTokens.map
        (fun p : String × List String => (p.1, mkCounter p.2))).map
      (fun p : String × Counter => counterGet p.2 t)).sum
  rw [counterGet_corpus_fold, List.map_map, List.map_map]
  have h0 : counterGet [] t = 0 := rfl
  rw [h0, Nat.zero_add]
  congr 1
  refine List.map_congr_left ?_
  intro p _
  simpa [Function.comp] using sumScore_mkCounter p.2 t

/-! ## Claim C6 — top-N-in-document behaviour -/

theorem alookup_map_mkCounter (docs : List (String × List String))
    (fp : String) :
    alookup fp (docs.map (fun p => (p.1, mkCounter p.2))) =
      (alookup fp docs).map mkCounter := by
  induction docs with
  | nil => simp [alookup]
  | cons hd rest ih =>
    obtain ⟨k₀, toks⟩ := hd
    by_cases h : k₀ = fp <;> simp [alookup, h, ih]

/-- C6.  On an analyzer on which `compute_frequency_per_document` has run,
`get_top_n_in_document(D, N)` fails (with `KeyError`, the NotFound error)
iff `D` is not among the analyzed documents, and otherwise returns
`most_common(N)` of `D`'s counter: up to `N` pairs sorted by count
descending, ties kept in first-encounter insertion order (expressed as
filter-stability: the sorted table restricted to any fixed count equals the
insertion-ordered table so restricted), and `N ≥` the number of distinct
words returns all pairs.  On a *fresh* analyzer, however, the claimed
NotFound error is not what happens: the misspelled `_init_` never created
`freq_per_doc`, so the call raises `AttributeError` instead. -/
theorem c6_top_n_in_document :
    FrequencyAnalyzer.get_top_n_in_document FrequencyAnalyzer.new "a.txt" 1 =
      .error PyError.attributeError ∧
    ∀ (fa : FrequencyAnalyzer) (docsTokens : List (String × List String))
      (fp : String) (n : Nat),
      (FrequencyAnalyzer.get_top_n_in_document
          (FrequencyAnalyzer.compute_frequency_per_document fa docsTokens)
          fp n =
        .error PyError.keyError ↔ alookup fp docsTokens = none) ∧
      ∀ toks, alookup fp docsTokens = some toks →
        FrequencyAnalyzer.get_top_n_in_document
            (FrequencyAnalyzer.compute_frequency_per_document fa docsTokens)
            fp n =
          .ok (mostCommon n (mkCounter toks)) ∧
        (mostCommon n (mkCounter toks)).Pairwise (fun a b => b.2 ≤ a.2) ∧
        (∀ v, (sortDesc (mkCounter toks)).filter (fun p => p.2 = v) =
          (mkCounter toks).filter (fun p => p.2 = v)) ∧
        ((mkCounter toks).length ≤ n →
          mostCommon n (mkCounter toks) = sortDesc (mkCounter toks) ∧
          (mostCommon n (mkCounter toks)).Perm (mkCounter toks)) := by
  refine ⟨rfl, fun fa docsTokens fp n => ⟨?_, fun toks htoks => ?_⟩⟩
  · constructor
    · intro h
      cases hlk : alookup fp docsTokens with
      | none => rfl
      | some toks =>
        have hsome : alookup fp
            (docsTokens.map (fun p => (p.1, mkCounter p.2))) =
            some (mkCounter toks) := by
          rw [alookup_map_mkCounter, hlk]; rfl
        simp [FrequencyAnalyzer.get_top_n_in_document,
          FrequencyAnalyzer.compute_frequency_per_document, hsome] at h
    · intro h
      have hnone : alookup fp
          (docsTokens.map (fun p => (p.1, mkCounter p.2))) = none := by
        rw [alookup_map_mkCounter, h]; rfl
      simp [FrequencyAnalyzer.get_top_n_in_document,
        FrequencyAnalyzer.compute_frequency_per_document, hnone]
  · have hsome : alookup fp
        (docsTokens.map (fun p => (p.1, mkCounter p.2))) =
        some (mkCounter toks) := by
      rw [alookup_map_mkCounter, htoks]; rfl
    refine ⟨?_, ?_, fun v => sortDesc_filter _ v, fun hlen => ?_⟩
    · simp [FrequencyAnalyzer.get_top_n_in_document,
        FrequencyAnalyzer.compute_frequency_per_document, hsome]
    · exact (sortDesc_sorted (mkCounter toks)).sublist
        (List.take_sublist n (sortDesc (mkCounter toks)))
    · have hlen' : (sortDesc (mkCounter toks)).length ≤ n := by
        rw [(sortDesc_perm (mkCounter toks)).length_eq]
        exact hlen
      have htake : mostCommon n (mkCounter toks) =
          sortDesc (mkCounter toks) := by
        unfold mostCommon
        exact List.take_of_length_le hlen'
      exact ⟨htake, htake ▸ sortDesc_perm (mkCounter toks)⟩

/-- C6, witness: concrete run of the proved behaviour on the document
`["b", "a", "b"]`. -/
theorem c6_witness :
    FrequencyAnalyzer.get_top_n_in_document
        (FrequencyAnalyzer.compute_frequency_per_document FrequencyAnalyzer.new
          [("d.txt", ["b", "a", "b"])]) "d.txt" 3 =
      .ok (mostCommon 3 (mkCounter ["b", "a", "b"])) :=
  ((c6_top_n_in_document.2 FrequencyAnalyzer.new [("d.txt", ["b", "a", "b"])]
      "d.txt" 3).2 ["b", "a", "b"] (by decide)).1

/-! ## Retriever lemmas -/

theorem sumScore_entry_fold (entry : List (String × List Nat))
    (acc : List (String × Nat)) (f : String → Nat) (d : String) :
    sumScore (entry.foldl (fun a p => dictAddN a p.1 (f p.1)) acc) d =
      sumScore acc d + (entry.filter (fun p => p.1 = d)).length * f d := by
  induction entry generalizing acc with
  | nil => simp
  | cons hd rest ih =>
    obtain ⟨fp, lns⟩ := hd
    rw [List.foldl_cons, ih, sumScore_dictAddN]
    by_cases h : fp = d
    · subst h
      simp [List.filter_cons, Nat.succ_mul]
      omega
    · simp [List.filter_cons, h]

theorem nodup_dkeys_entry_fold (entry : List (String × List Nat))
    (acc : List (String × Nat)) (f : String → Nat)
    (h : (dkeys acc).Nodup) :
    (dkeys (entry.foldl (fun a p => dictAddN a p.1 (f p.1)) acc)).Nodup := by
  induction entry generalizing acc with
  | nil => exact h
  | cons hd rest ih =>
    exact ih _ (nodup_dkeys_dictAddN acc hd.1 (f hd.1) h)

theorem sumScore_orStep (r : DocumentRetriever)
    (acc : List (String × Nat)) (kw d : String) :
    sumScore (orStep r acc kw) d = sumScore acc d + orWeight r kw d := by
  unfold orStep orWeight
  cases h : alookup (strLower kw) r.index with
  | none => simp [h]
  | some entry =>
    simp only [h]
    exact sumScore_entry_fold entry acc
      (fun fp => freqGet r.freq_per_doc fp (strLower kw)) d

theorem nodup_dkeys_orStep (r : DocumentRetriever)
    (acc : List (String × Nat)) (kw : String)
    (h : (dkeys acc).Nodup) : (dkeys (orStep r acc kw)).Nodup := by
  unfold orStep
  cases halk : alookup (strLower kw) r.index with
  | none => simp only [halk]; exact h
  | some entry =>
    simp only [halk]
    exact nodup_dkeys_entry_fold entry acc
      (fun fp => freqGet r.freq_per_doc fp (strLower kw)) h

theorem sumScore_orFold (r : DocumentRetriever) (ks : List String)
    (acc : List (String × Nat)) (d : String) :
    sumScore (ks.foldl (orStep r) acc) d =
      sumScore acc d + (ks.map (fun kw => orWeight r kw d)).sum := by
  induction ks generalizing acc with
  | nil => simp
  | cons kw rest ih =>
    rw [List.foldl_cons, ih, sumScore_orStep]
    simp [Nat.add_assoc]

theorem nodup_dkeys_orFold (r : DocumentRetriever) (ks : List String)
    (acc : List (String × Nat)) (h : (dkeys acc).Nodup) :
    (dkeys (ks.foldl (orStep r) acc)).Nodup := by
  induction ks generalizing acc with
  | nil => exact h
  | cons kw rest ih => exact ih _ (nodup_dkeys_orStep r acc kw h)

/-- The OR-mode score of any document is the sum of one `orWeight` per
keyword occurrence in the query. -/
theorem resScore_retrieve (r : DocumentRetriever) (ks : List String)
    (d : String) :
    resScore (r.retrieve ks) d = (ks.map (fun kw => orWeight r kw d)).sum := by
  unfold DocumentRetriever.retrieve
  by_cases hks : ks.isEmpty
  · have : ks = [] := List.isEmpty_iff.mp hks
    subst this
    simp [resScore, alookup]
  · rw [if_neg hks]
    have hnd : (dkeys (ks.foldl (orStep r) [])).Nodup :=
      nodup_dkeys_orFold r ks [] (by simp [dkeys])
    unfold resScore
    rw [alookup_sortDesc hnd, ← sumScore_eq_alookup hnd]
    simpa [sumScore_nil] using sumScore_orFold r ks [] d

/-! ## Claim C5 — OR-mode score monotonicity -/

/-- C5.  In OR mode, for every keyword list `ks`, additional keyword `k`,
and document `d` that receives a score for `ks`, the score of `d` under
`retrieve(ks ++ [k])` is at least its score under `retrieve(ks)`. -/
theorem c5_or_monotonic (r : DocumentRetriever) (ks : List String)
    (k d : String) (hd : containsKey d (r.retrieve ks) = true) :
    resScore (r.retrieve (ks ++ [k])) d ≥ resScore (r.retrieve ks) d := by
  rw [resScore_retrieve, resScore_retrieve, List.map_append, List.sum_append]
  exact Nat.le_add_right _ _

/-- C5, witness: on the concrete state `rEx`, `a.txt` scores 2 for
`["cat"]` and 5 for `["cat", "dog"]`. -/
theorem c5_witness :
    resScore (rEx.retrieve (["cat"] ++ ["dog"])) "a.txt" ≥
      resScore (rEx.retrieve ["cat"]) "a.txt" :=
  c5_or_monotonic rEx ["cat"] "dog" "a.txt" (by decide)

/-! ## AND-mode lemmas -/

theorem foldl_add_sum (ks : List String) (f : String → Nat) (init : Nat) :
    ks.foldl (fun sc kw => sc + f kw) init = init + (ks.map f).sum := by
  induction ks generalizing init with
  | nil => simp
  | cons kw rest ih =>
    rw [List.foldl_cons, ih]
    simp [Nat.add_assoc]

theorem alookup_map_pair (l : List String) (g : String → Nat) (d : String) :
    alookup d (l.map (fun x => (x, g x))) =
      if d ∈ l then some (g d) else none := by
  induction l with
  | nil => simp [alookup]
  | cons x rest ih =>
    by_cases h : x = d
    · subst h; simp [alookup]
    · have hne : ¬ (d = x) := fun hh => h hh.symm
      simp [alookup, h, hne, ih]

theorem dkeys_map_pair (l : List String) (g : String → Nat) :
    dkeys (l.map (fun x => (x, g x))) = l := by
  induction l with
  | nil => rfl
  | cons x rest ih =>
    simp only [dkeys, List.map_cons] at ih ⊢
    rw [ih]

theorem nodup_andIntersection (r : DocumentRetriever) (kw₀ : String)
    (krest : List String) (hwf : IndexWF r.index) :
    (andIntersection r (kw₀ :: krest)).Nodup := by
  have hs : (dkeys ((alookup (strLower kw₀) r.index).getD [])).Nodup := by
    cases h : alookup (strLower kw₀) r.index with
    | none => simp [dkeys]
    | some entry => exact hwf (strLower kw₀, entry) (alookup_mem h)
  unfold andIntersection andDocSets
  simpa using hs.filter _

/-- The per-document score reported by AND mode is `andScore`: the sum of
the document's frequency counts over all keyword occurrences. -/
theorem alookup_and_retrieve (r : DocumentRetriever) (ks : List String)
    (hwf : IndexWF r.index) (fp : String) (s : Nat)
    (h : alookup fp (r.boolean_and_retrieve ks) = some s) :
    fp ∈ andIntersection r ks ∧
      s = (ks.map (fun kw => freqGet r.freq_per_doc fp (strLower kw))).sum := by
  unfold DocumentRetriever.boolean_and_retrieve at h
  by_cases hks : ks.isEmpty
  · rw [if_pos hks] at h
    simp [alookup] at h
  · rw [if_neg hks] at h
    obtain ⟨kw₀, krest, rfl⟩ : ∃ kw₀ krest, ks = kw₀ :: krest := by
      cases ks with
      | nil => simp at hks
      | cons a b => exact ⟨a, b, rfl⟩
    have hnd : (dkeys ((andIntersection r (kw₀ :: krest)).map
        (fun fp => (fp, andScore r (kw₀ :: krest) fp)))).Nodup := by
      rw [dkeys_map_pair]
      exact nodup_andIntersection r kw₀ krest hwf
    rw [alookup_sortDesc hnd, alookup_map_pair] at h
    by_cases hmem : fp ∈ andIntersection r (kw₀ :: krest)
    · rw [if_pos hmem] at h
      refine ⟨hmem, ?_⟩
      have hs : s = andScore r (kw₀ :: krest) fp := (Option.some.inj h).symm
      rw [hs]
      unfold andScore
      simpa using foldl_add_sum (kw₀ :: krest)
        (fun kw => freqGet r.freq_per_doc fp (strLower kw)) 0
    · rw [if_neg hmem] at h
      cases h

/-- Membership in the AND-mode intersection means being listed under every
keyword of the query. -/
theorem mem_andIntersection (r : DocumentRetriever) (kw₀ : String)
    (krest : List String) (fp : String)
    (h : fp ∈ andIntersection r (kw₀ :: krest)) :
    ∀ kw ∈ kw₀ :: krest,
      fp ∈ dkeys ((alookup (strLower kw) r.index).getD []) := by
  unfold andIntersection andDocSets at h
  simp only [List.map_cons] at h
  rw [List.mem_filter] at h
  intro kw hkw
  rcases List.mem_cons.mp hkw with rfl | hkw'
  · exact h.1
  · have hall := h.2
    rw [List.all_eq_true] at hall
    have hset : dkeys ((alookup (strLower kw) r.index).getD []) ∈
        krest.map (fun kw => dkeys ((alookup (strLower kw) r.index).getD [])) :=
      List.mem_map_of_mem _ hkw'
    have := hall _ hset
    simpa using this

theorem filter_key_nil {V : Type} (l : List (String × V)) (d : String)
    (h : d ∉ dkeys l) : l.filter (fun p => p.1 = d) = [] := by
  induction l with
  | nil => rfl
  | cons hd rest ih =>
    simp only [dkeys, List.map_cons, List.mem_cons, not_or] at h
    have hne : ¬ (hd.1 = d) := fun hh => h.1 hh.symm
    simp only [List.filter_cons, hne, decide_eq_true_eq, if_false]
    simpa using ih (by simpa [dkeys] using h.2)

theorem length_filter_key {V : Type} (l : List (String × V)) (d : String)
    (h : (dkeys l).Nodup) :
    (l.filter (fun p => p.1 = d)).length = if d ∈ dkeys l then 1 else 0 := by
  induction l with
  | nil => simp [dkeys]
  | cons hd rest ih =>
    simp only [dkeys, List.map_cons, List.nodup_cons] at h
    by_cases hk : hd.1 = d
    · subst hk
      simp [List.filter_cons, filter_key_nil rest hd.1 h.1, dkeys]
    · have hne : ¬ (d = hd.1) := fun hh => hk hh.symm
      simp only [List.filter_cons, hk, decide_eq_true_eq, if_false]
      rw [ih h.2]
      by_cases hm : d ∈ List.map Prod.fst rest
      · simp [dkeys, hm, List.mem_cons]
      · simp [dkeys, hm, List.mem_cons, hne]

/-! ## Claim C4 — AND mode versus OR mode -/

/-- C4.  For every keyword list and retriever state (with a well-formed
index), (a) every document returned by `boolean_and_retrieve` is listed in
the index under at least one of the keywords, and (b) a document appearing
in both the AND result and the OR result has AND score ≤ OR score (in fact
the scores coincide, because such a document is listed under every
keyword). -/
theorem c4_and_subset_scores (r : DocumentRetriever) (ks : List String)
    (hwf : IndexWF r.index) :
    (∀ d ∈ dkeys (r.boolean_and_retrieve ks),
      ∃ kw ∈ ks, d ∈ dkeys ((alookup (strLower kw) r.index).getD [])) ∧
    (∀ d s₁ s₂, alookup d (r.boolean_and_retrieve ks) = some s₁ →
      alookup d (r.retrieve ks) = some s₂ → s₁ ≤ s₂) := by
  constructor
  · intro d hd
    unfold DocumentRetriever.boolean_and_retrieve at hd
    by_cases hks : ks.isEmpty
    · rw [if_pos hks] at hd
      simp [dkeys] at hd
    · rw [if_neg hks] at hd
      obtain ⟨kw₀, krest, rfl⟩ : ∃ kw₀ krest, ks = kw₀ :: krest := by
        cases ks with
        | nil => simp at hks
        | cons a b => exact ⟨a, b, rfl⟩
      have hd' : d ∈ dkeys ((andIntersection r (kw₀ :: krest)).map
          (fun fp => (fp, andScore r (kw₀ :: krest) fp))) := by
        unfold dkeys at hd ⊢
        exact ((sortDesc_perm _).map Prod.fst).mem_iff.mp hd
      rw [dkeys_map_pair] at hd'
      exact ⟨kw₀, List.mem_cons_self _ _,
        mem_andIntersection r kw₀ krest d hd' kw₀ (List.mem_cons_self _ _)⟩
  · intro d s₁ s₂ h₁ h₂
    obtain ⟨hmem, hs₁⟩ := alookup_and_retrieve r ks hwf d s₁ h₁
    cases ks with
    | nil => simp [andIntersection, andDocSets] at hmem
    | cons kw₀ krest =>
      have hall := mem_andIntersection r kw₀ krest d hmem
      have hs₂ : s₂ = ((kw₀ :: krest).map (fun kw => orWeight r kw d)).sum := by
        have hr := resScore_retrieve r (kw₀ :: krest) d
        unfold resScore at hr
        rw [h₂] at hr
        simpa using hr
      rw [hs₁, hs₂]
      apply le_of_eq
      congr 1
      apply List.map_congr_left
      intro kw hkw
      have hdmem := hall kw hkw
      cases hent : alookup (strLower kw) r.index with
      | none =>
        exfalso
        rw [hent] at hdmem
        simp [dkeys] at hdmem
      | some entry =>
        unfold orWeight
        simp only [hent]
        rw [hent] at hdmem
        have hnd : (dkeys entry).Nodup := hwf _ (alookup_mem hent)
        rw [length_filter_key entry d hnd]
        simp only [Option.getD_some] at hdmem
        simp [hdmem]

/-- C4, witness: on the concrete state `rEx` with keywords
`["cat", "dog"]`, document `a.txt` appears in both modes and its AND score
(5) is ≤ its OR score (5). -/
theorem c4_witness :
    alookup "a.txt" (rEx.boolean_and_retrieve ["cat", "dog"]) = some 5 ∧
    alookup "a.txt" (rEx.retrieve ["cat", "dog"]) = some 5 ∧
    (5 : Nat) ≤ 5 :=
  ⟨by decide, by decide,
    (c4_and_subset_scores rEx ["cat", "dog"] (by decide)).2 "a.txt" 5 5
      (by decide) (by decide)⟩

/-! ## Claim C10 — linearity of scores in keyword multiplicity -/

/-- C10, counterexample.  The claim predicates the added contribution only
on the keyword being present in the index; but the code adds the frequency
count only to documents *listed under the keyword*.  In the state `rBad`
(accepted by the `DocumentRetriever` constructor), "cat" is in the index
and `a.txt` has frequency count 5 for "cat", yet `a.txt` is not listed
under "cat", so its score stays 1 instead of becoming 1 + 5. -/
theorem c10_counterexample :
    ¬ (resScore (rBad.retrieve (["dog"] ++ ["cat"])) "a.txt" =
        resScore (rBad.retrieve ["dog"]) "a.txt" +
          (if containsKey (strLower "cat") rBad.index = true then
            freqGet rBad.freq_per_doc "a.txt" (strLower "cat")
          else 0)) := by decide

/-- C10, amended.  With a well-formed index: the OR-mode score of `d` under
`retrieve(ks ++ [k])` equals its score under `retrieve(ks)` plus `d`'s
frequency count for lowercased `k` when `k` is present in the index *and
`d` is listed in `k`'s index entry* (0 otherwise) — so repeating a keyword
multiplies its contribution; and in `boolean_and_retrieve` every listed
document's score is the sum over all keyword occurrences of the document's
frequency count, hence also linear in keyword multiplicity. -/
theorem c10_linearity (r : DocumentRetriever) (ks : List String)
    (k d : String) (hwf : IndexWF r.index) :
    (resScore (r.retrieve (ks ++ [k])) d =
      resScore (r.retrieve ks) d +
        (match alookup (strLower k) r.index with
         | none => 0
         | some entry =>
           if containsKey d entry = true then
             freqGet r.freq_per_doc d (strLower k)
           else 0)) ∧
    ∀ fp s, alookup fp (r.boolean_and_retrieve ks) = some s →
      s = (ks.map (fun kw => freqGet r.freq_per_doc fp (strLower kw))).sum := by
  constructor
  · rw [resScore_retrieve, resScore_retrieve, List.map_append,
      List.sum_append]
    congr 1
    simp only [List.map_cons, List.map_nil, List.sum_cons, List.sum_nil,
      Nat.add_zero]
    unfold orWeight
    cases hent : alookup (strLower k) r.index with
    | none => simp only [hent]
    | some entry =>
      simp only [hent]
      have hnd : (dkeys entry).Nodup := hwf _ (alookup_mem hent)
      rw [length_filter_key entry d hnd]
      by_cases hmem : d ∈ dkeys entry
      · rw [if_pos hmem, if_pos ((containsKey_iff entry d).mpr hmem),
          Nat.one_mul]
      · rw [if_neg hmem, if_neg, Nat.zero_mul]
        intro hc
        exact hmem ((containsKey_iff entry d).mp hc)
  · intro fp s h
    exact (alookup_and_retrieve r ks hwf fp s h).2

/-- C10, witness: the amended equation evaluated on the concrete state
`rEx` with `ks = ["cat"]`, `k = "dog"`, `d = "a.txt"`. -/
theorem c10_witness :
    resScore (rEx.retrieve (["cat"] ++ ["dog"])) "a.txt" =
      resScore (rEx.retrieve ["cat"]) "a.txt" +
        (match alookup (strLower "dog") rEx.index with
         | none => 0
         | some entry =>
           if containsKey "a.txt" entry = true then
             freqGet rEx.freq_per_doc "a.txt" (strLower "dog")
           else 0) :=
  (c10_linearity rEx ["cat"] "dog" "a.txt" (by decide)).1

/-! ## Claim C7 — a bad path aborts the load before any mutation -/

theorem resolvePaths_error (fs : FileSystem) (paths : List String)
    (q : String) (hq : q ∈ paths) (hbad : InvalidPath fs q) :
    ∃ p, p ∈ paths ∧ InvalidPath fs p ∧
      resolvePaths fs paths = .error p := by
  induction paths with
  | nil => cases hq
  | cons p₀ rest ih =>
    by_cases hdir : fs.isDir p₀ = true
    · have hq' : q ∈ rest := by
        rcases List.mem_cons.mp hq with rfl | h
        · exact absurd hdir hbad.1
        · exact h
      obtain ⟨p, hp, hpbad, herr⟩ := ih hq'
      refine ⟨p, List.mem_cons_of_mem _ hp, hpbad, ?_⟩
      unfold resolvePaths
      rw [if_pos hdir, herr]
    · by_cases hfile : fs.isFile p₀ = true ∧ is_text_file p₀ = true
      · have hb : (fs.isFile p₀ && is_text_file p₀) = true := by
          rw [Bool.and_eq_true]; exact hfile
        have hq' : q ∈ rest := by
          rcases List.mem_cons.mp hq with rfl | h
          · exact absurd hfile hbad.2
          · exact h
        obtain ⟨p, hp, hpbad, herr⟩ := ih hq'
        refine ⟨p, List.mem_cons_of_mem _ hp, hpbad, ?_⟩
        unfold resolvePaths
        rw [if_neg hdir, if_pos hb, herr]
      · refine ⟨p₀, List.mem_cons_self _ _, ⟨hdir, hfile⟩, ?_⟩
        have hb : ¬ ((fs.isFile p₀ && is_text_file p₀) = true) := by
          rw [Bool.and_eq_true]; exact hfile
        unfold resolvePaths
        rw [if_neg hdir, if_neg hb]

/-- C7.  If the path list handed to `process_documents` contains a path
that is neither a directory nor an eligible `.txt` file, the call returns a
`FileNotFoundError` naming an offending path (the first one encountered)
and the three document stores are exactly what they were before the call —
the whole list is resolved before any store is touched, so documents loaded
by prior successful calls are unaffected. -/
theorem c7_abort_unchanged (fs : FileSystem) (tp : TextProcessor)
    (paths : List String) (q : String) (hq : q ∈ paths)
    (hbad : InvalidPath fs q) :
    ∃ p, p ∈ paths ∧ InvalidPath fs p ∧
      TextProcessor.process_documents fs tp paths =
        (some (PyError.fileNotFound p), tp) := by
  obtain ⟨p, hp, hpbad, herr⟩ := resolvePaths_error fs paths q hq hbad
  refine ⟨p, hp, hpbad, ?_⟩
  unfold TextProcessor.process_documents
  rw [herr]

/-- C7, witness: loading the single nonexistent path `ghost.txt` on the
empty filesystem fails with `FileNotFoundError("ghost.txt")` and leaves the
fresh `TextProcessor` stores untouched. -/
theorem c7_witness :
    TextProcessor.process_documents fsEmpty TextProcessor.new ["ghost.txt"] =
      (some (PyError.fileNotFound "ghost.txt"), TextProcessor.new) := by
  obtain ⟨p, hp, -, heq⟩ := c7_abort_unchanged fsEmpty TextProcessor.new
    ["ghost.txt"] "ghost.txt" (by simp) ⟨by decide, by decide⟩
  have hp' : p = "ghost.txt" := by simpa using hp
  rw [hp'] at heq
  exact heq

/-! ## Claim C9 — shape of the line lists produced by `build_index` -/

theorem linesIn_addToken (ix : Index) (fp : String) (i : Nat)
    (mot t d : String) :
    linesIn (addToken ix fp i mot) t d =
      linesIn ix t d ++ (if t = mot ∧ d = fp then [i] else []) := by
  simp only [addToken, linesIn]
  rw [alookup_dictInsert]
  by_cases ht : mot = t
  · subst ht
    rw [if_pos rfl]
    simp only [Option.some_bind]
    rw [alookup_dictInsert]
    by_cases hd : fp = d
    · subst hd
      rw [if_pos rfl]
      simp only [and_self, if_pos rfl]
      cases hix : alookup mot ix with
      | none => simp [alookup]
      | some inn => simp
    · rw [if_neg hd]
      have hdf : ¬ (d = fp) := fun hh => hd hh.symm
      simp only [hdf, and_false, true_and, if_false, List.append_nil]
      cases hix : alookup mot ix with
      | none => simp [alookup]
      | some inn => simp
  · rw [if_neg ht]
    have hcond : ¬ (t = mot ∧ d = fp) := fun hh => ht hh.1.symm
    rw [if_neg hcond, List.append_nil]

theorem linesIn_tokens_fold (ts : List String) (ix : Index) (fp : String)
    (i : Nat) (t d : String) :
    linesIn (ts.foldl (fun a mot => addToken a fp i mot) ix) t d =
      linesIn ix t d ++
        (if d = fp then List.replicate (ts.count t) i else []) := by
  induction ts generalizing ix with
  | nil => simp
  | cons m rest ih =>
    rw [List.foldl_cons, ih, linesIn_addToken, List.append_assoc]
    by_cases hd : d = fp
    · by_cases ht : t = m
      · simp only [ht, hd, and_self, if_pos rfl]
        congr 1
        rw [List.count_cons]
        simp [List.replicate_succ]
      · have hcond : ¬ (t = m ∧ d = fp) := fun hh => ht hh.1
        have hmt : ¬ (m = t) := fun hh => ht hh.symm
        simp only [hcond, if_false, if_pos hd, List.nil_append]
        congr 2
        rw [List.count_cons]
        simp [ht, hmt]
    · have hcond : ¬ (t = m ∧ d = fp) := fun hh => hd hh.2
      simp [hcond, hd]

theorem linesIn_addLineTokens (ix : Index) (fp : String) (i : Nat)
    (line : String) (t d : String) :
    linesIn (addLineTokens ix fp i line) t d =
      linesIn ix t d ++
        (if d = fp then List.replicate ((lineTokens line).count t) i
         else []) :=
  linesIn_tokens_fold (lineTokens line) ix fp i t d

theorem linesIn_addLines (lines : List String) (ix : Index) (fp : String)
    (i : Nat) (t d : String) :
    linesIn (addLines ix fp i lines) t d =
      linesIn ix t d ++ (if d = fp then lineBlocks t i lines else []) := by
  induction lines generalizing ix i with
  | nil => simp [addLines, lineBlocks]
  | cons l rest ih =>
    show linesIn (addLines (addLineTokens ix fp i l) fp (i + 1) rest) t d = _
    rw [ih, linesIn_addLineTokens, List.append_assoc]
    by_cases hd : d = fp
    · simp [hd, lineBlocks]
    · simp [hd]

theorem linesIn_docs_fold (docs : List (String × List String)) (ix : Index)
    (t d : String) (hnd : (dkeys docs).Nodup) :
    linesIn (docs.foldl (fun a p => addLines a p.1 1 p.2) ix) t d =
      linesIn ix t d ++
        (match alookup d docs with
         | some lines => lineBlocks t 1 lines
         | none => []) := by
  induction docs generalizing ix with
  | nil => simp [alookup]
  | cons hd₀ rest ih =>
    obtain ⟨fp, lines⟩ := hd₀
    simp only [dkeys, List.map_cons, List.nodup_cons] at hnd
    rw [List.foldl_cons, ih _ hnd.2, linesIn_addLines, List.append_assoc]
    by_cases hdfp : d = fp
    · subst hdfp
      have hrest : alookup d rest = none :=
        (alookup_eq_none rest d).mpr (by simpa [dkeys] using hnd.1)
      simp [alookup, hrest]
    · have hne : ¬ (fp = d) := fun hh => hdfp hh.symm
      simp [alookup, hdfp, hne]

theorem linesIn_buildIndex (docs : List (String × List String))
    (hnd : (dkeys docs).Nodup) (t d : String) :
    linesIn (buildIndex docs) t d =
      (match alookup d docs with
       | some lines => lineBlocks t 1 lines
       | none => []) := by
  unfold buildIndex
  rw [linesIn_docs_fold docs [] t d hnd]
  simp [linesIn, alookup]

theorem indexNE_addToken (ix : Index) (fp : String) (i : Nat) (mot : String)
    (h : IndexNE ix) : IndexNE (addToken ix fp i mot) := by
  intro t entry d lst h1 h2
  simp only [addToken] at h1
  rw [alookup_dictInsert] at h1
  by_cases ht : mot = t
  · rw [if_pos ht] at h1
    obtain rfl : dictInsert ((alookup mot ix).getD []) fp
        ((alookup fp ((alookup mot ix).getD [])).getD [] ++ [i]) = entry :=
      Option.some.inj h1
    rw [alookup_dictInsert] at h2
    by_cases hdf : fp = d
    · rw [if_pos hdf] at h2
      obtain rfl : _ ++ [i] = lst := Option.some.inj h2
      simp
    · rw [if_neg hdf] at h2
      cases hix : alookup mot ix with
      | none =>
        rw [hix] at h2
        simp [alookup] at h2
      | some inn =>
        rw [hix] at h2
        exact h mot inn d lst hix (by simpa using h2)
  · rw [if_neg ht] at h1
    exact h t entry d lst h1 h2

theorem indexNE_tokens_fold (ts : List String) (ix : Index) (fp : String)
    (i : Nat) (h : IndexNE ix) :
    IndexNE (ts.foldl (fun a mot => addToken a fp i mot) ix) := by
  induction ts generalizing ix with
  | nil => exact h
  | cons m rest ih => exact ih _ (indexNE_addToken ix fp i m h)

theorem indexNE_addLines (lines : List String) (ix : Index) (fp : String)
    (i : Nat) (h : IndexNE ix) : IndexNE (addLines ix fp i lines) := by
  induction lines generalizing ix i with
  | nil => exact h
  | cons l rest ih =>
    exact ih _ _ (indexNE_tokens_fold (lineTokens l) ix fp i h)

theorem indexNE_buildIndex (docs : List (String × List String)) :
    IndexNE (buildIndex docs) := by
  unfold buildIndex
  have base : IndexNE [] := by
    intro t entry d lst h1 _
    simp [alookup] at h1
  generalize hix : ([] : Index) = ix at base
  clear hix
  induction docs generalizing ix with
  | nil => exact base
  | cons hd₀ rest ih =>
    exact ih _ (indexNE_addLines hd₀.2 ix hd₀.1 1 base)

theorem mem_lineBlocks {t : String} {i : Nat} {lines : List String} {k : Nat}
    (h : k ∈ lineBlocks t i lines) : i ≤ k ∧ k < i + lines.length := by
  induction lines generalizing i with
  | nil => simp [lineBlocks] at h
  | cons l rest ih =>
    rw [lineBlocks] at h
    rcases List.mem_append.mp h with h1 | h2
    · obtain rfl : k = i := List.eq_of_mem_replicate h1
      simp only [List.length_cons]
      omega
    · have := ih h2
      simp only [List.length_cons]
      omega

theorem pairwise_replicate_le (n i : Nat) :
    (List.replicate n i).Pairwise (· ≤ ·) := by
  induction n with
  | zero => simp
  | succ m ih =>
    rw [List.replicate_succ]
    refine List.pairwise_cons.mpr ⟨?_, ih⟩
    intro b hb
    rw [List.eq_of_mem_replicate hb]

theorem lineBlocks_sorted (t : String) (i : Nat) (lines : List String) :
    (lineBlocks t i lines).Pairwise (· ≤ ·) := by
  induction lines generalizing i with
  | nil => simp [lineBlocks]
  | cons l rest ih =>
    rw [lineBlocks, List.pairwise_append]
    refine ⟨pairwise_replicate_le _ _, ih (i + 1), ?_⟩
    intro a ha b hb
    rw [List.eq_of_mem_replicate ha]
    have := (mem_lineBlocks hb).1
    omega

theorem count_lineBlocks (t : String) (lines : List String) :
    ∀ (i k : Nat),
    (lineBlocks t i lines).count k =
      if i ≤ k ∧ k < i + lines.length then
        (lineTokens (lines.getD (k - i) "")).count t
      else 0 := by
  induction lines with
  | nil =>
    intro i k
    simp only [lineBlocks, List.count_nil, List.length_nil, Nat.add_zero]
    rw [if_neg (by omega)]
  | cons l rest ih =>
    intro i k
    rw [lineBlocks, List.count_append, ih (i + 1) k]
    by_cases hk : k = i
    · subst hk
      have h1 : (List.replicate ((lineTokens l).count t) k).count k =
          (lineTokens l).count t := List.count_replicate_self _ _
      rw [h1, if_neg (by omega), Nat.add_zero,
        if_pos ⟨Nat.le_refl k, by simp only [List.length_cons]; omega⟩,
        Nat.sub_self, List.getD_cons_zero]
    · have h0 : (List.replicate ((lineTokens l).count t) i).count k = 0 := by
        rw [List.count_replicate]
        have hik : ¬ (i = k) := fun hh => hk hh.symm
        simp [hk, hik]
      rw [h0, Nat.zero_add]
      by_cases hge : i + 1 ≤ k
      · have hsub : k - i = (k - (i + 1)) + 1 := by omega
        by_cases hlt : k < i + 1 + rest.length
        · rw [if_pos ⟨hge, hlt⟩,
            if_pos ⟨by omega, by simp only [List.length_cons]; omega⟩,
            hsub, List.getD_cons_succ]
        · rw [if_neg (by omega),
            if_neg (by simp only [List.length_cons]; omega)]
      · rw [if_neg (by omega),
          if_neg (by simp only [List.length_cons]; omega)]

/-- C9.  After `build_index` on a document → line-list mapping, every line
list found in the index (for a token `t` and a document `d`) is sorted
ascending, lists a line number exactly once per occurrence of `t` on that
line of `d`, and every listed line number lies between 1 and the number of
lines of `d`. -/
theorem c9_index_invariant (docs : List (String × List String))
    (hnd : (dkeys docs).Nodup) (t : String)
    (entry : List (String × List Nat)) (d : String) (lns : List Nat)
    (h1 : alookup t (buildIndex docs) = some entry)
    (h2 : alookup d entry = some lns) :
    ∃ lines, alookup d docs = some lines ∧
      lns.Pairwise (· ≤ ·) ∧
      (∀ k ∈ lns, 1 ≤ k ∧ k ≤ lines.length) ∧
      (∀ k, lns.count k =
        if 1 ≤ k ∧ k ≤ lines.length then
          (lineTokens (lines.getD (k - 1) "")).count t
        else 0) := by
  have hlns : linesIn (buildIndex docs) t d = lns := by
    unfold linesIn
    rw [h1]
    simp [h2]
  have hne : lns ≠ [] := indexNE_buildIndex docs t entry d lns h1 h2
  rw [linesIn_buildIndex docs hnd t d] at hlns
  cases hlk : alookup d docs with
  | none =>
    rw [hlk] at hlns
    exact absurd hlns.symm (by simpa using hne)
  | some lines =>
    rw [hlk] at hlns
    simp only at hlns
    refine ⟨lines, rfl, ?_, ?_, ?_⟩
    · rw [← hlns]
      exact lineBlocks_sorted t 1 lines
    · intro k hk
      rw [← hlns] at hk
      have := mem_lineBlocks hk
      omega
    · intro k
      rw [← hlns, count_lineBlocks]
      by_cases hc : 1 ≤ k ∧ k ≤ lines.length
      · rw [if_pos ⟨hc.1, by omega⟩, if_pos hc]
      · rw [if_neg (by omega), if_neg hc]

/-- C9, witness: on the two-line document
`a.txt = ["cat dog", "the cat cat"]`, the index entry for "cat" is
`[1, 2, 2]` — sorted, line 2 repeated once per occurrence, all line numbers
within range. -/
theorem c9_witness :
    alookup "cat" (buildIndex docsEx) = some [("a.txt", [1, 2, 2])] ∧
    ([1, 2, 2] : List Nat).Pairwise (· ≤ ·) ∧
    ([1, 2, 2] : List Nat).count 2 = 2 ∧
    ([1, 2, 2] : List Nat).count 1 = 1 := by
  obtain ⟨lines, hl, hp, hb, hc⟩ := c9_index_invariant docsEx (by decide)
    "cat" [("a.txt", [1, 2, 2])] "a.txt" [1, 2, 2] (by decide) (by decide)
  have hconc : alookup "a.txt" docsEx = some ["cat dog", "the cat cat"] := by
    decide
  rw [hconc] at hl
  obtain rfl : ["cat dog", "the cat cat"] = lines := Option.some.inj hl
  refine ⟨by decide, hp, ?_, ?_⟩
  · have h2 := hc 2
    rw [h2]
    decide
  · have h1 := hc 1
    rw [h1]
    decide
